import Mathlib

/-!
# Centini: the per-connection `User` session entity

A shallow embedding of `src/user.cpp`.  The object's fields are a record
(`User`), everything the object acts on is a second record (`World`): the three
persistence tables, the list of statements handed to `QSqlQuery::exec`, the
messages handed to `sendMessage`, the signals emitted, the running timers.
Every member function is a function on `State = User × World`; the current time
(`QDateTime::currentDateTime()`) and the outcome of each `exec` are arguments.

The Qt types are modelled as far as user.cpp uses them: `QVariant`,
`QVariantMap`, `QDateTime`, `QMetaEnum`.  `user.h` is not part of the sources:
the enumerations it declares are integer codes and their name tables are a
parameter (`UserDecls`).
-/

namespace Centini

/-! ## Qt value types -/

/-- The `QVariant` values that travel in a field map: the default-constructed
(invalid) variant, a `bool`, an integer, a `QString`. -/
inductive QVariant where
  | invalid
  | bool (b : Bool)
  | int (i : Int)
  | string (s : String)
deriving DecidableEq, Repr

/-- Qt's `QVariant::toString()`: the text of a string, the decimal digits of an
integer, `true` or `false` for a bool, the empty string for an invalid variant. -/
def QVariant.toString : QVariant → String
  | .invalid => ""
  | .bool b => if b then "true" else "false"
  | .int i => Int.repr i
  | .string s => s

/-- A `QVariantMap` (`QMap<QString, QVariant>`): entries kept in key order, one
entry per key.  Lookups take the first entry of a key. -/
structure QVariantMap where
  entries : List (String × QVariant)
deriving DecidableEq, Repr

namespace QVariantMap

/-- The map a default-constructed `QVariantMap` holds. -/
def empty : QVariantMap := ⟨[]⟩

/-- First entry under `key` in an entry list. -/
def findEntry : List (String × QVariant) → String → Option QVariant
  | [], _ => none
  | (k, v) :: rest, key => if k = key then some v else findEntry rest key

/-- The entry under `key`, if the map has one. -/
def find (m : QVariantMap) (key : String) : Option QVariant :=
  findEntry m.entries key

/-- Qt's `QMap::contains`. -/
def contains (m : QVariantMap) (key : String) : Bool :=
  (m.find key).isSome

/-- Qt's `QMap::value`: the entry under `key`, a default-constructed variant when
there is none. -/
def value (m : QVariantMap) (key : String) : QVariant :=
  (m.find key).getD QVariant.invalid

/-- Insertion into an entry list in key order (keys compare character by
character), replacing an entry of the same key. -/
def insertEntry : List (String × QVariant) → String → QVariant → List (String × QVariant)
  | [], key, v => [(key, v)]
  | (k, w) :: rest, key, v =>
    if key.data < k.data then (key, v) :: (k, w) :: rest
    else if k = key then (key, v) :: rest
    else (k, w) :: insertEntry rest key v

/-- The assignment `fields[key] = v` (`QMap::operator[]` followed by
assignment): the entry is replaced when present and added when not. -/
def insert (m : QVariantMap) (key : String) (v : QVariant) : QVariantMap :=
  ⟨insertEntry m.entries key v⟩

/-- Qt's `QMap::remove`: the map without entries under `key`. -/
def remove (m : QVariantMap) (key : String) : QVariantMap :=
  ⟨m.entries.filter (fun e => decide (e.1 ≠ key))⟩

/-- Qt's `QMap::take`: removes the entry under `key` and returns its value, a
default-constructed variant when there is none. -/
def take (m : QVariantMap) (key : String) : QVariant × QVariantMap :=
  (m.value key, m.remove key)

end QVariantMap

/-- A `QDateTime`: default-constructed (null), not null but invalid, or a valid
instant given in milliseconds since the epoch. -/
inductive QDateTime where
  | null
  | invalid
  | valid (msecs : Int)
deriving DecidableEq, Repr

namespace QDateTime

/-- Qt's `QDateTime::isNull`. -/
def isNull : QDateTime → Bool
  | .null => true
  | _ => false

/-- Qt's `QDateTime::msecsTo`: 0 when either side is not valid. -/
def msecsTo : QDateTime → QDateTime → Int
  | .valid a, .valid b => b - a
  | _, _ => 0

/-- Qt's `QDateTime::secsTo`: `msecsTo(other) / 1000` in C++ integer division,
which rounds toward zero. -/
def secsTo (self other : QDateTime) : Int :=
  Int.tdiv (self.msecsTo other) 1000

end QDateTime

/-! ## The meta-object: enumeration name tables -/

/-- A `QMetaEnum`: the enumerators of one enumeration, in declaration order,
each with its value. -/
structure QMetaEnum where
  keys : List (String × Int)
deriving DecidableEq, Repr

/-- The part of a `QMetaObject` that user.cpp reads: the class name and the
registered enumerations by name. -/
structure QMetaObject where
  className : String
  enumerators : List (String × QMetaEnum)
deriving DecidableEq, Repr

/-- The expression `object->enumerator(object->indexOfEnumerator(name))`: the enumeration
registered under `name`; `none` stands for the invalid `QMetaEnum` returned
when the name is not registered. -/
def QMetaObject.enumerator (o : QMetaObject) (name : String) : Option QMetaEnum :=
  (o.enumerators.find? (fun e => decide (e.1 = name))).map (fun e => e.2)

/-- Qt's `QMetaEnum::valueToKey`: the first enumerator whose value is `value`;
`none` is the null pointer returned when there is none. -/
def QMetaEnum.valueToKey (e : QMetaEnum) (value : Int) : Option String :=
  (e.keys.find? (fun kv => decide (kv.2 = value))).map (fun kv => kv.1)

/-! ### `QMetaEnum::keysToValue`

The lookup behind `User::enumIndex` (user.cpp 294).  Qt documents it as
returning "the value derived from combining together the values of the keys
using the OR operator, or -1 if keys is not defined", the keys being separated
by `|`.  Its implementation splits the argument on `|`, trims each part, lets a
part carry a scope (`User::Login`), scans the enumerators from the last to the
first for the key, ORs the value found into the result, and ORs -1 into it for a
part that is no key. -/

/-- Qt's `QString::toLatin1`: a UTF-16 code unit above 255 becomes `?` (a character
outside the basic plane is two code units). -/
def toLatin1 (text : List Char) : List Char :=
  text.flatMap (fun c =>
    if c.toNat ≤ 255 then [c]
    else if c.toNat ≤ 65535 then [Char.ofNat 63]
    else [Char.ofNat 63, Char.ofNat 63])

/-- The C string behind `QByteArray::data()`: it ends at the first NUL. -/
def cString (bytes : List Char) : List Char :=
  bytes.takeWhile (fun c => decide (c ≠ Char.ofNat 0))

/-- Qt's `QChar::isSpace` on a Latin-1 character: tab to carriage return, space,
next line (0x85) and no-break space (0xA0). -/
def isSpace (c : Char) : Bool :=
  decide (c.toNat = 32) || (decide (9 ≤ c.toNat) && decide (c.toNat ≤ 13)) ||
    decide (c.toNat = 133) || decide (c.toNat = 160)

/-- Qt's `QString::trimmed`: without leading and trailing whitespace. -/
def trimmed (text : List Char) : List Char :=
  ((text.dropWhile isSpace).reverse.dropWhile isSpace).reverse

/-- Qt's `QString::split(sep)`, empty parts kept: always at least one part. -/
def splitOn (sep : Char) : List Char → List (List Char)
  | [] => [[]]
  | c :: rest =>
    if c = sep then [] :: splitOn sep rest
    else match splitOn sep rest with
      | [] => [[c]]
      | part :: parts => (c :: part) :: parts

/-- The scope scan of `keysToValue`: `s` walks back from the end of the key to
the last `:` at an index above 0; when the character before it is a `:` too,
the scope is what stands before the two colons and the key what follows them.
Returns the scope length and the remaining key. -/
def splitScope (key : List Char) : Nat × List Char :=
  let after := (key.reverse.takeWhile (fun c => decide (c ≠ Char.ofNat 58))).length
  let p := key.length - 1 - after
  if after < key.length ∧ 0 < p ∧ key.get? (p - 1) = some (Char.ofNat 58)
  then (p - 1, key.drop (p + 1))
  else (0, key)

/-- One part of the key list looked up among the enumerators, last enumerator
first as Qt scans them: a scope, when given, has to be the class name. -/
def QMetaEnum.findKey (e : QMetaEnum) (className : String) (part : List Char) :
    Option Int :=
  let qualified := toLatin1 (trimmed part)
  let sc := splitScope qualified
  (e.keys.reverse.find? (fun kv =>
    (decide (sc.1 = 0) ||
      (decide (className.toList.length = sc.1) &&
        decide (qualified.take sc.1 = className.toList))) &&
    decide (sc.2 = kv.1.toList))).map (fun kv => kv.2)

/-- Qt's `QMetaEnum::keysToValue(keys)`, where `keys` is the C string handed over:
the bitwise OR over the `|`-separated parts of the value of each, -1 for a part
that is no key. -/
def QMetaEnum.keysToValue (e : QMetaEnum) (className : String) (keys : List Char) : Int :=
  (splitOn (Char.ofNat 124) keys).foldl
    (fun value part => Int.lor value ((e.findKey className part).getD (-1))) 0

/-- What user.cpp takes from `user.h`, which is not among the sources: the
meta-object of the class (the name tables of `Level`, `PhoneState`,
`QueueState`, `Action`, `Request`, `Event`) and the values of the three
`User::Event` enumerators that user.cpp names. -/
structure UserDecls where
  metaObject : QMetaObject
  PeerChanged : Int
  QueueStateChanged : Int
  PhoneStateChanged : Int

/-! ## Persistence tables -/

/-- A row of `user_session_log(id, username, start, finish)`. -/
structure SessionRow where
  id : Nat
  username : String
  start : Int
  finish : Option Int
deriving DecidableEq, Repr

/-- A row of `user_pause_log(id, username, start, finish, reason)`. -/
structure PauseRow where
  id : Nat
  username : String
  start : Int
  finish : Option Int
  reason : String
deriving DecidableEq, Repr

/-- The three tables, and for the two logs the id the next inserted row gets
(auto-increment). -/
structure Database where
  user_session_log : List SessionRow
  user_pause_log : List PauseRow
  group_member : List (String × String)
  nextSessionId : Nat
  nextPauseId : Nat
deriving DecidableEq, Repr

/-- The statements user.cpp prepares, with their bound values. -/
inductive Statement where
  | sessionInsert (username : String) (start : Int)
  | sessionUpdate (finish : Int) (id : Nat)
  | pauseInsert (username : String) (start : Int) (reason : String)
  | pauseUpdate (finish : Int) (id : Nat)
  | pauseSelect (username : String)
  | groupSelect (username : String)
deriving DecidableEq, Repr

namespace Database

/-- The session-log rows whose finish is unset. -/
def openSessions (db : Database) : List SessionRow :=
  db.user_session_log.filter (fun r => r.finish.isNone)

/-- The pause-log rows whose finish is unset. -/
def openPauses (db : Database) : List PauseRow :=
  db.user_pause_log.filter (fun r => r.finish.isNone)

/-- The open session-log rows of the user `name`. -/
def openSessionsOf (db : Database) (name : String) : List SessionRow :=
  db.openSessions.filter (fun r => decide (r.username = name))

/-- The open pause-log rows of the user `name`. -/
def openPausesOf (db : Database) (name : String) : List PauseRow :=
  db.openPauses.filter (fun r => decide (r.username = name))

/-- Of two candidate rows the one `ORDER BY start DESC` puts first; the earlier
row of the table stays on a tie. -/
def laterPause (best : Option PauseRow) (r : PauseRow) : Option PauseRow :=
  match best with
  | none => some r
  | some b => if b.start < r.start then some r else some b

/-- The statement `SELECT id, reason FROM user_pause_log WHERE username = :username AND
finish IS NULL ORDER BY start DESC LIMIT 1`. -/
def selectOpenPause (db : Database) (username : String) : Option PauseRow :=
  (db.openPauses.filter (fun r => decide (r.username = username))).foldl laterPause none

/-- The statement `SELECT group FROM group_member WHERE username = :username`: the group
column of the matching rows. -/
def selectGroups (db : Database) (username : String) : List String :=
  (db.group_member.filter (fun r => decide (r.1 = username))).map (fun r => r.2)

/-- The effect of a successfully executed statement on the tables.  An INSERT
gives the new row the next id of its table; an UPDATE sets `finish` in every
row with the bound id; a SELECT changes nothing. -/
def apply (db : Database) : Statement → Database
  | .sessionInsert username start =>
    { db with
      user_session_log := db.user_session_log ++ [⟨db.nextSessionId, username, start, none⟩]
      nextSessionId := db.nextSessionId + 1 }
  | .sessionUpdate finish id =>
    { db with
      user_session_log := db.user_session_log.map
        (fun r => if r.id = id then { r with finish := some finish } else r) }
  | .pauseInsert username start reason =>
    { db with
      user_pause_log := db.user_pause_log ++ [⟨db.nextPauseId, username, start, none, reason⟩]
      nextPauseId := db.nextPauseId + 1 }
  | .pauseUpdate finish id =>
    { db with
      user_pause_log := db.user_pause_log.map
        (fun r => if r.id = id then { r with finish := some finish } else r) }
  | .pauseSelect _ => db
  | .groupSelect _ => db

end Database

/-- Whether a statement writes the session log (the INSERT of `startSession`
or the UPDATE of `finishSession`). -/
def Statement.isSessionWrite : Statement → Bool
  | .sessionInsert _ _ => true
  | .sessionUpdate _ _ => true
  | _ => false

/-- The signals of `User` that user.cpp emits. -/
inductive Signal where
  | peerChanged (peer : String)
  | queueStateChanged (queueState : Int)
  | phoneStateChanged (phoneState : Int)
  | actionReceived (action : Int) (fields : QVariantMap)
  | requestReceived (request : Int) (fields : QVariantMap)
deriving DecidableEq, Repr

/-! ## The object and its surroundings -/

/-- The data members of `User`. -/
structure User where
  sessionId : Nat
  pauseId : Nat
  timerId : Nat
  username_ : String
  fullname_ : String
  level_ : Int
  groups_ : List String
  peer_ : String
  queues_ : List String
  queueState_ : Int
  pauseReason_ : String
  phoneState_ : Int
  lastCall_ : QDateTime
deriving DecidableEq, Repr

/-- Everything outside the object that user.cpp acts on.  `executed` lists the
statements handed to `QSqlQuery::exec` with the outcome of each, `sent` the
messages handed to `sendMessage`, `emitted` the signals, all oldest first;
`timers` the running timers (id, interval in ms); `disconnects` counts the
calls of `disconnect()`. -/
structure World where
  database : Database
  executed : List (Statement × Bool)
  sent : List QVariantMap
  emitted : List Signal
  timers : List (Nat × Nat)
  nextTimerId : Nat
  disconnects : Nat
deriving DecidableEq, Repr

/-- The call `query.exec()`: the statement is recorded with its outcome `ok`,
and takes effect on the tables when it succeeds. -/
def World.exec (w : World) (st : Statement) (ok : Bool) : World :=
  { w with
    executed := w.executed ++ [(st, ok)]
    database := if ok then w.database.apply st else w.database }

/-- Qt's `QVariant::toUInt()` of a row id: the value as a 32-bit unsigned. -/
def toUInt (n : Nat) : Nat := n % 2 ^ 32

/-- A `User` object together with its surroundings. -/
structure State where
  user : User
  world : World
deriving DecidableEq, Repr

namespace User

/-! ## Enumeration names (user.cpp 233-261, 283-295) -/

/-- Member `User::enumText`: `valueToKey(index)` of the named enumeration, converted
to a `QString` (empty when the pointer is null). -/
def enumText (d : UserDecls) (enumName : String) (index : Int) : String :=
  match d.metaObject.enumerator enumName with
  | none => ""
  | some e => (e.valueToKey index).getD ""

/-- Member `User::levelText`. -/
def levelText (d : UserDecls) (u : User) (index : Int) : String :=
  enumText d "Level" (if index < 0 then u.level_ else index)

/-- Member `User::phoneStateText`. -/
def phoneStateText (d : UserDecls) (u : User) (index : Int) : String :=
  enumText d "PhoneState" (if index < 0 then u.phoneState_ else index)

/-- Member `User::queueStateText`. -/
def queueStateText (d : UserDecls) (u : User) (index : Int) : String :=
  enumText d "QueueState" (if index < 0 then u.queueState_ else index)

/-- Member `User::levelIndex`, `User::actionIndex` and `User::requestIndex` all go
through `User::enumIndex`: `keysToValue(text.toLatin1().data())` of the named
enumeration, -1 from the invalid `QMetaEnum` of a name that is not registered. -/
def enumIndex (d : UserDecls) (enumName : String) (text : String) : Int :=
  match d.metaObject.enumerator enumName with
  | none => -1
  | some e => e.keysToValue d.metaObject.className (cString (toLatin1 text.toList))

/-- Member `User::levelIndex`. -/
def levelIndex (d : UserDecls) (text : String) : Int := enumIndex d "Level" text

/-- Member `User::actionIndex`. -/
def actionIndex (d : UserDecls) (text : String) : Int := enumIndex d "Action" text

/-- Member `User::requestIndex`. -/
def requestIndex (d : UserDecls) (text : String) : Int := enumIndex d "Request" text

/-! ## Plain setters and the queue list (user.cpp 38-56, 80-99, 123-126) -/

/-- Member `User::setFullname`. -/
def setFullname (fullname : String) (s : State) : State :=
  { s with user := { s.user with fullname_ := fullname } }

/-- Member `User::setLevel`. -/
def setLevel (level : Int) (s : State) : State :=
  { s with user := { s.user with level_ := level } }

/-- Member `User::setPauseReason`. -/
def setPauseReason (pauseReason : String) (s : State) : State :=
  { s with user := { s.user with pauseReason_ := pauseReason } }

/-- Member `User::addQueue`: `if (!queues_.contains(queue)) queues_ << queue`. -/
def addQueue (queue : String) (s : State) : State :=
  if s.user.queues_.contains queue then s
  else { s with user := { s.user with queues_ := s.user.queues_ ++ [queue] } }

/-- Member `User::removeQueue`: `queues_.removeAll(queue)`. -/
def removeQueue (queue : String) (s : State) : State :=
  { s with user := { s.user with queues_ := s.user.queues_.filter (fun q => decide (q ≠ queue)) } }

/-- Member `User::setQueues`. -/
def setQueues (queues : List String) (s : State) : State :=
  { s with user := { s.user with queues_ := queues } }

/-! ## Session and pause bookkeeping (user.cpp 166-205, 297-339) -/

/-- Member `User::startSession`; `ok` is the outcome of `query.exec()`. -/
def startSession (now : Int) (ok : Bool) (s : State) : State :=
  let lastInsertId := s.world.database.nextSessionId
  let s := { s with world := s.world.exec (.sessionInsert s.user.username_ now) ok }
  if ok then { s with user := { s.user with sessionId := toUInt lastInsertId } } else s

/-- Member `User::finishSession`. -/
def finishSession (now : Int) (ok : Bool) (s : State) : State :=
  { s with world := s.world.exec (.sessionUpdate now s.user.sessionId) ok }

/-- Member `User::populateGroups`: on success the groups are replaced by the
non-empty group names of the user's rows. -/
def populateGroups (ok : Bool) (s : State) : State :=
  let rows := s.world.database.selectGroups s.user.username_
  let s := { s with world := s.world.exec (.groupSelect s.user.username_) ok }
  if ok then { s with user := { s.user with groups_ := rows.filter (fun g => decide (g ≠ "")) } }
  else s

/-- Member `User::startPause`. -/
def startPause (now : Int) (ok : Bool) (s : State) : State :=
  let lastInsertId := s.world.database.nextPauseId
  let s := { s with
    world := s.world.exec (.pauseInsert s.user.username_ now s.user.pauseReason_) ok }
  if ok then { s with user := { s.user with pauseId := toUInt lastInsertId } } else s

/-- Member `User::finishPause`: the id is bound before `pauseId` is reset, the
statement is executed after. -/
def finishPause (now : Int) (ok : Bool) (s : State) : State :=
  let st := Statement.pauseUpdate now s.user.pauseId
  let s := { s with user := { s.user with pauseId := 0 } }
  { s with world := s.world.exec st ok }

/-- Member `User::retrievePause`. -/
def retrievePause (ok : Bool) (s : State) : State :=
  let row := s.world.database.selectOpenPause s.user.username_
  let s := { s with world := s.world.exec (.pauseSelect s.user.username_) ok }
  if ok then
    match row with
    | some r => { s with user := { s.user with pauseId := toUInt r.id, pauseReason_ := r.reason } }
    | none => s
  else s

/-! ## Life cycle (user.cpp 7-31, 263-266) -/

/-- Qt's `startTimer(interval)`: a new running timer; its id is returned. -/
def startTimer (interval : Nat) (w : World) : Nat × World :=
  (w.nextTimerId,
    { w with timers := w.timers ++ [(w.nextTimerId, interval)], nextTimerId := w.nextTimerId + 1 })

/-- Qt's `killTimer(id)`. -/
def killTimer (id : Nat) (s : State) : State :=
  { s with world := { s.world with timers := s.world.timers.filter (fun t => decide (t.1 ≠ id)) } }

/-- Constructor `User::User`: `sessionId` and `pauseId` are 0, the strings, the lists and
the last call are default-constructed, and the 15000 ms timer is started.  The
constructor does not initialise `level_`, `queueState_` and `phoneState_`:
their first values are arguments. -/
def create (level queueState phoneState : Int) (w : World) : State :=
  let t := startTimer 15000 w
  { user :=
      { sessionId := 0, pauseId := 0, timerId := t.1, username_ := "", fullname_ := "",
        level_ := level, groups_ := [], peer_ := "", queues_ := [], queueState_ := queueState,
        pauseReason_ := "", phoneState_ := phoneState, lastCall_ := .null }
    world := t.2 }

/-- Destructor `User::~User`. -/
def destroy (now : Int) (ok : Bool) (s : State) : State :=
  if s.user.username_ ≠ "" then finishSession now ok s else s

/-- Member `User::setUsername`; `okGroups` and `okInsert` are the outcomes of the
two statements it may execute. -/
def setUsername (now : Int) (okGroups okInsert : Bool) (username : String) (s : State) : State :=
  let s := { s with user := { s.user with username_ := username } }
  if username ≠ "" then
    let s := killTimer s.user.timerId s
    let s := populateGroups okGroups s
    startSession now okInsert s
  else s

/-- Member `User::timerEvent`: calls `disconnect()`. -/
def timerEvent (s : State) : State :=
  { s with world := { s.world with disconnects := s.world.disconnects + 1 } }

/-! ## Framing (user.cpp 207-231) -/

/-- The call `sendMessage(fields)`: the message is handed to the transport. -/
def sendMessage (fields : QVariantMap) (s : State) : State :=
  { s with world := { s.world with sent := s.world.sent ++ [fields] } }

/-- Member `User::sendResponse(User::Action, bool, QVariantMap)`. -/
def sendResponseAction (d : UserDecls) (action : Int) (success : Bool) (fields : QVariantMap)
    (s : State) : State :=
  let fields := fields.insert "type" (.string "Response")
  let fields := fields.insert "response" (.string (enumText d "Action" action))
  let fields := fields.insert "success" (.bool success)
  sendMessage fields s

/-- Member `User::sendResponse(User::Request, bool, QVariantMap)`. -/
def sendResponseRequest (d : UserDecls) (request : Int) (success : Bool) (fields : QVariantMap)
    (s : State) : State :=
  let fields := fields.insert "type" (.string "Response")
  let fields := fields.insert "request" (.string (enumText d "Request" request))
  let fields := fields.insert "success" (.bool success)
  sendMessage fields s

/-- Member `User::sendEvent`. -/
def sendEvent (d : UserDecls) (event : Int) (fields : QVariantMap) (s : State) : State :=
  let fields := fields.insert "type" (.string "Event")
  let fields := fields.insert "event" (.string (enumText d "Event" event))
  sendMessage fields s

/-- The statement `emit signal(...)`. -/
def emit (sig : Signal) (s : State) : State :=
  { s with world := { s.world with emitted := s.world.emitted ++ [sig] } }

/-! ## Setters that report a change (user.cpp 63-73, 101-116, 133-159) -/

/-- Member `User::setPeer`. -/
def setPeer (d : UserDecls) (peer : String) (s : State) : State :=
  let s := { s with user := { s.user with peer_ := peer } }
  let fields := QVariantMap.empty.insert "peer" (.string peer)
  let s := sendEvent d d.PeerChanged fields s
  emit (.peerChanged peer) s

/-- Member `User::setQueueState`. -/
def setQueueState (d : UserDecls) (queue : String) (queueState : Int) (pauseReason : String)
    (s : State) : State :=
  let s := { s with user := { s.user with queueState_ := queueState } }
  let fields := QVariantMap.empty.insert "username" (.string s.user.username_)
  let fields := fields.insert "queue" (.string queue)
  let fields := fields.insert "queue_state" (.string (queueStateText d s.user queueState))
  let fields := if pauseReason ≠ "" then fields.insert "pause_reason" (.string pauseReason)
    else fields
  let s := sendEvent d d.QueueStateChanged fields s
  emit (.queueStateChanged queueState) s

/-- Member `User::setPhoneState`; `now` is `QDateTime::currentDateTime()`, in
milliseconds since the epoch. -/
def setPhoneState (d : UserDecls) (now : Int) (phoneState : Int) (s : State) : State :=
  let s := { s with user := { s.user with phoneState_ := phoneState } }
  let fields := QVariantMap.empty.insert "username" (.string s.user.username_)
  let fields := fields.insert "phone_state" (.string (phoneStateText d s.user phoneState))
  let fields := if s.user.lastCall_.isNull = false
    then fields.insert "duration" (.int (s.user.lastCall_.secsTo (.valid now)))
    else fields
  let s := sendEvent d d.PhoneStateChanged fields s
  emit (.phoneStateChanged phoneState) s

/-- Member `User::setLastCall`. -/
def setLastCall (lastCall : QDateTime) (s : State) : State :=
  { s with user := { s.user with lastCall_ := lastCall } }

/-! ## Inbound messages (user.cpp 268-281) -/

/-- Member `User::parseMessageFields`: the return value and the state after. -/
def parseMessageFields (d : UserDecls) (fields : QVariantMap) (s : State) : Bool × State :=
  let a := fields.take "action"
  let actionText := a.1.toString
  let r := a.2.take "request"
  let requestText := r.1.toString
  let fields := r.2
  if actionText ≠ "" then
    (true, emit (.actionReceived (actionIndex d actionText) fields) s)
  else if requestText ≠ "" then
    (true, emit (.requestReceived (requestIndex d requestText) fields) s)
  else
    (false, s)

/-! ## Sequences of calls -/

/-- One call of a member function of `User` that changes the object or its
surroundings, with the clock reading and statement outcomes it meets. -/
inductive Op where
  | setUsername (now : Int) (okGroups okInsert : Bool) (username : String)
  | setFullname (fullname : String)
  | setLevel (level : Int)
  | setPeer (peer : String)
  | addQueue (queue : String)
  | removeQueue (queue : String)
  | setQueues (queues : List String)
  | setQueueState (queue : String) (queueState : Int) (pauseReason : String)
  | setPauseReason (pauseReason : String)
  | setPhoneState (now : Int) (phoneState : Int)
  | setLastCall (lastCall : QDateTime)
  | startPause (now : Int) (ok : Bool)
  | finishPause (now : Int) (ok : Bool)
  | retrievePause (ok : Bool)
  | sendResponseAction (action : Int) (success : Bool) (fields : QVariantMap)
  | sendResponseRequest (request : Int) (success : Bool) (fields : QVariantMap)
  | sendEvent (event : Int) (fields : QVariantMap)
  | timerEvent
  | parseMessageFields (fields : QVariantMap)
deriving DecidableEq, Repr

/-- The state after one call. -/
def step (d : UserDecls) (s : State) : Op → State
  | .setUsername now okGroups okInsert username => setUsername now okGroups okInsert username s
  | .setFullname fullname => setFullname fullname s
  | .setLevel level => setLevel level s
  | .setPeer peer => setPeer d peer s
  | .addQueue queue => addQueue queue s
  | .removeQueue queue => removeQueue queue s
  | .setQueues queues => setQueues queues s
  | .setQueueState queue queueState pauseReason => setQueueState d queue queueState pauseReason s
  | .setPauseReason pauseReason => setPauseReason pauseReason s
  | .setPhoneState now phoneState => setPhoneState d now phoneState s
  | .setLastCall lastCall => setLastCall lastCall s
  | .startPause now ok => startPause now ok s
  | .finishPause now ok => finishPause now ok s
  | .retrievePause ok => retrievePause ok s
  | .sendResponseAction action success fields => sendResponseAction d action success fields s
  | .sendResponseRequest request success fields => sendResponseRequest d request success fields s
  | .sendEvent event fields => sendEvent d event fields s
  | .timerEvent => timerEvent s
  | .parseMessageFields fields => (parseMessageFields d fields s).2

/-- The state after a sequence of calls, first call first. -/
def run (d : UserDecls) (s : State) (ops : List Op) : State :=
  ops.foldl (step d) s

/-! ## Conditions on a life of calls -/

/-- Whether a call is `setUsername`. -/
def Op.isSetUsername : Op → Bool
  | .setUsername _ _ _ _ => true
  | _ => false

/-- Whether a call is one of the four that execute statements: `setUsername`,
`startPause`, `finishPause`, `retrievePause`. -/
def Op.isBookkeeping : Op → Bool
  | .setUsername _ _ _ _ => true
  | .startPause _ _ => true
  | .finishPause _ _ => true
  | .retrievePause _ => true
  | _ => false

/-- Whether a call is `setUsername` with a non-empty name, the call that
authenticates the user. -/
def Op.authenticates : Op → Bool
  | .setUsername _ _ _ username => decide (username ≠ "")
  | _ => false

/-- Whether a call leaves the session of an authenticated user alone: every
call does, except a `setUsername` that clears the username (an empty name) or
opens another session row (a non-empty name whose INSERT succeeds). -/
def Op.keepsSession : Op → Bool
  | .setUsername _ _ okInsert username => decide (username ≠ "") && !okInsert
  | _ => true

/-- The open session-log rows a call can add for the user `name`: one, for
`setUsername` with that name, non-empty, when its INSERT succeeds. -/
def Op.sessionRowsAdded (name : String) : Op → Nat
  | .setUsername _ _ okInsert username =>
    if username ≠ "" ∧ okInsert = true ∧ username = name then 1 else 0
  | _ => 0

/-- The open pause-log rows a call made in state `s` can add for the user
`name`: one, for `startPause` while that is the username, when its INSERT
succeeds. -/
def Op.pauseRowsAdded (s : State) (name : String) : Op → Nat
  | .startPause _ ok => if ok = true ∧ s.user.username_ = name then 1 else 0
  | _ => 0

/-- The discipline under which the logs keep to one open row a user:
`setUsername` with a non-empty name is called while that name has no open
session-log row, `startPause` while the username has no open pause-log row. -/
def Op.allowedIn (s : State) : Op → Prop
  | .setUsername _ _ _ username =>
    username ≠ "" → s.world.database.openSessionsOf username = []
  | .startPause _ _ => s.world.database.openPausesOf s.user.username_ = []
  | _ => True

/-- Every call of the sequence is allowed in the state it is made in. -/
def Disciplined (d : UserDecls) : State → List Op → Prop
  | _, [] => True
  | s, op :: rest => op.allowedIn s ∧ Disciplined d (step d s op) rest

/-- The statements of a list of executed statements that write the session
log. -/
def sessionWrites (executed : List (Statement × Bool)) : List (Statement × Bool) :=
  executed.filter (fun e => e.1.isSessionWrite)

end User

/-! ## A concrete instance

Used where a statement is evaluated on explicit values. -/

/-- Modelled from the spec: `user.h`, which declares the enumerations, is not
among the sources.  The levels are the spec's Agent, Supervisor, Manager; the
queue states its Available and Paused; the phone state its OnCall; the actions
the ones its router resolves (Login, Logout, Dial, Hangup, Spy, Whisper,
JoinQueue, PauseQueue, LeaveQueue), which are also the `action...` handlers of
centiniserver.h; the events the three that user.cpp names.  Values count from
0 in that order, as C++ numbers enumerators without initialisers. -/
def specDecls : UserDecls :=
  { metaObject :=
      { className := "User"
        enumerators :=
          [("Level", ⟨[("Agent", 0), ("Supervisor", 1), ("Manager", 2)]⟩),
           ("PhoneState", ⟨[("OnCall", 0)]⟩),
           ("QueueState", ⟨[("Available", 0), ("Paused", 1)]⟩),
           ("Action", ⟨[("Login", 0), ("Logout", 1), ("Dial", 2), ("Hangup", 3), ("Spy", 4),
              ("Whisper", 5), ("JoinQueue", 6), ("PauseQueue", 7), ("LeaveQueue", 8)]⟩),
           ("Request", ⟨[]⟩),
           ("Event", ⟨[("PeerChanged", 0), ("QueueStateChanged", 1),
              ("PhoneStateChanged", 2)]⟩)] }
    PeerChanged := 0
    QueueStateChanged := 1
    PhoneStateChanged := 2 }

/-- Empty tables whose ids start at 1, nothing executed, sent or emitted, no
timer running. -/
def emptyWorld : World :=
  { database :=
      { user_session_log := [], user_pause_log := [], group_member := [],
        nextSessionId := 1, nextPauseId := 1 }
    executed := [], sent := [], emitted := [], timers := [], nextTimerId := 1, disconnects := 0 }

/-- Tables as an earlier life leaves them: bob is logged in and paused (an open
session row and an open pause row), and alice has an open pause row from a
connection that ended while she was paused. -/
def leftoverWorld : World :=
  { emptyWorld with
    database :=
      { user_session_log := [⟨1, "bob", 100, none⟩]
        user_pause_log := [⟨1, "alice", 500, none, "lunch"⟩, ⟨2, "bob", 600, none, "break"⟩]
        group_member := []
        nextSessionId := 2
        nextPauseId := 3 } }

/-- An empty session log whose next id is 2^32, the first that `sessionId`, an
unsigned 32-bit integer, cannot hold. -/
def lateWorld : World :=
  { emptyWorld with database := { emptyWorld.database with nextSessionId := 4294967296 } }

/-- A freshly constructed user in `emptyWorld`. -/
def freshState : State := User.create 0 0 0 emptyWorld

/-! ## Field maps: lookups after an update -/

namespace QVariantMap

theorem findEntry_insertEntry (l : List (String × QVariant)) (key : String) (v : QVariant)
    (k : String) :
    findEntry (insertEntry l key v) k = if k = key then some v else findEntry l k := by
  induction l with
  | nil =>
    by_cases h : k = key
    · simp [insertEntry, findEntry, h]
    · have h2 : ¬ key = k := fun e => h e.symm
      simp [insertEntry, findEntry, h, h2]
  | cons e rest ih =>
    obtain ⟨k0, w⟩ := e
    by_cases hlt : key.data < k0.data
    · by_cases h : k = key
      · simp [insertEntry, findEntry, hlt, h]
      · have h2 : ¬ key = k := fun e => h e.symm
        simp [insertEntry, findEntry, hlt, h, h2]
    · by_cases heq : k0 = key
      · by_cases h : k = key
        · simp [insertEntry, findEntry, hlt, heq, h]
        · have h2 : ¬ key = k := fun e => h e.symm
          simp [insertEntry, findEntry, hlt, heq, h, h2]
      · by_cases h : k = key
        · subst h
          simp [insertEntry, findEntry, hlt, heq, ih]
        · by_cases h3 : k0 = k
          · subst h3
            simp [insertEntry, findEntry, hlt, heq]
          · simp [insertEntry, findEntry, hlt, heq, h, h3, ih]

theorem find_insert (m : QVariantMap) (key : String) (v : QVariant) (k : String) :
    (m.insert key v).find k = if k = key then some v else m.find k := by
  simp [insert, find, findEntry_insertEntry]

theorem findEntry_filter_ne (l : List (String × QVariant)) (key k : String) :
    findEntry (l.filter (fun e => !decide (e.1 = key))) k =
      if k = key then none else findEntry l k := by
  induction l with
  | nil => simp [findEntry]
  | cons e rest ih =>
    obtain ⟨k0, w⟩ := e
    by_cases h0 : k0 = key
    · subst h0
      by_cases h : k = k0
      · subst h
        simpa [List.filter, findEntry] using ih
      · have h2 : ¬ k0 = k := fun e => h e.symm
        simpa [List.filter, findEntry, h, h2] using ih
    · by_cases h : k = key
      · subst h
        simpa [List.filter, findEntry, h0] using ih
      · by_cases h3 : k0 = k
        · subst h3
          simp [List.filter, findEntry, h0]
        · simpa [List.filter, findEntry, h0, h, h3] using ih

theorem find_remove (m : QVariantMap) (key k : String) :
    (m.remove key).find k = if k = key then none else m.find k := by
  simp [remove, find, findEntry_filter_ne]

theorem find_empty (k : String) : empty.find k = none := rfl

end QVariantMap

namespace User

/-! ## Framing -/

/-- C5: framing only adds the discriminator set.  `sendEvent(e, f)` hands the
transport exactly one message, which is `f` with `type` set to "Event" and
`event` to the name of `e`; `sendResponse(x, success, f)` hands it exactly one
message, which is `f` with `type` set to "Response", `success` to the flag and
the discriminator (`response` for an action, `request` for a request) to the
name of `x`.  Every other key of `f` reads as in `f`, a value that `f` held
under a reserved key is overwritten, and nothing else changes: the object, the
tables, the executed statements and the emitted signals stay. -/
theorem framing_adds_only_discriminators (d : UserDecls) (s : State) (f : QVariantMap)
    (code : Int) (success : Bool) :
    (∃ m, (sendEvent d code f s).world.sent = s.world.sent ++ [m] ∧
      (∀ k, m.find k =
        if k = "event" then some (.string (enumText d "Event" code))
        else if k = "type" then some (.string "Event")
        else f.find k) ∧
      (sendEvent d code f s).user = s.user ∧
      (sendEvent d code f s).world = { s.world with sent := s.world.sent ++ [m] }) ∧
    (∃ m, (sendResponseAction d code success f s).world.sent = s.world.sent ++ [m] ∧
      (∀ k, m.find k =
        if k = "success" then some (.bool success)
        else if k = "response" then some (.string (enumText d "Action" code))
        else if k = "type" then some (.string "Response")
        else f.find k) ∧
      (sendResponseAction d code success f s).user = s.user ∧
      (sendResponseAction d code success f s).world =
        { s.world with sent := s.world.sent ++ [m] }) ∧
    (∃ m, (sendResponseRequest d code success f s).world.sent = s.world.sent ++ [m] ∧
      (∀ k, m.find k =
        if k = "success" then some (.bool success)
        else if k = "request" then some (.string (enumText d "Request" code))
        else if k = "type" then some (.string "Response")
        else f.find k) ∧
      (sendResponseRequest d code success f s).user = s.user ∧
      (sendResponseRequest d code success f s).world =
        { s.world with sent := s.world.sent ++ [m] }) := by
  refine ⟨⟨_, rfl, ?_, rfl, rfl⟩, ⟨_, rfl, ?_, rfl, rfl⟩, ⟨_, rfl, ?_, rfl, rfl⟩⟩
  · intro k
    simp only [QVariantMap.find_insert]
  · intro k
    simp only [QVariantMap.find_insert]
  · intro k
    simp only [QVariantMap.find_insert]

end User

namespace User

/-! ## Change events -/

/-- C1: for every state and every phone state, `setPhoneState` hands the
transport exactly one message, the `PhoneStateChanged` event; it has a
`duration` field if and only if the last-call timestamp is not null, and the
field then holds `lastCall_.secsTo(now)`: for a valid timestamp `t` the whole
seconds from `t` to the current time. -/
theorem setPhoneState_duration_iff_lastCall (d : UserDecls) (now phoneState : Int) (s : State) :
    ∃ m, (setPhoneState d now phoneState s).world.sent = s.world.sent ++ [m] ∧
      m.find "type" = some (.string "Event") ∧
      m.find "event" = some (.string (enumText d "Event" d.PhoneStateChanged)) ∧
      (m.contains "duration" = true ↔ s.user.lastCall_.isNull = false) ∧
      (s.user.lastCall_.isNull = false →
        m.find "duration" = some (.int (s.user.lastCall_.secsTo (.valid now)))) ∧
      (∀ t, s.user.lastCall_ = .valid t →
        m.find "duration" = some (.int (Int.tdiv (now - t) 1000))) := by
  refine ⟨_, rfl, ?_, ?_, ?_, ?_, ?_⟩
  · simp [QVariantMap.find_insert]
  · simp [QVariantMap.find_insert]
  · cases h : s.user.lastCall_.isNull <;>
      simp [QVariantMap.contains, QVariantMap.find_insert, QVariantMap.find_empty, h]
  · intro h
    simp [QVariantMap.find_insert, h]
  · intro t ht
    simp [QVariantMap.find_insert, ht, QDateTime.isNull, QDateTime.secsTo, QDateTime.msecsTo]

/-- C2, as the code has it: for every queue name, queue state and pause
reason, `setQueueState` hands the transport exactly one message, the
`QueueStateChanged` event, and it has a `pause_reason` field if and only if the
reason is non-empty, whatever the queue state; the field then holds the
reason. -/
theorem setQueueState_pause_reason_iff_nonempty (d : UserDecls) (queue : String)
    (queueState : Int) (pauseReason : String) (s : State) :
    ∃ m, (setQueueState d queue queueState pauseReason s).world.sent = s.world.sent ++ [m] ∧
      m.find "type" = some (.string "Event") ∧
      m.find "event" = some (.string (enumText d "Event" d.QueueStateChanged)) ∧
      (m.contains "pause_reason" = true ↔ pauseReason ≠ "") ∧
      (pauseReason ≠ "" → m.find "pause_reason" = some (.string pauseReason)) := by
  refine ⟨_, rfl, ?_, ?_, ?_, ?_⟩
  · simp [QVariantMap.find_insert]
  · simp [QVariantMap.find_insert]
  · by_cases h : pauseReason = "" <;>
      simp [QVariantMap.contains, QVariantMap.find_insert, QVariantMap.find_empty, h]
  · intro h
    simp [QVariantMap.find_insert, h]

/-- C2 fails as stated: `setQueueState("sales", Available, "lunch")` on a fresh
user sends an event whose `queue_state` is "Available" and which carries
`pause_reason`, so the field is present although the state is not Paused. -/
theorem setQueueState_pause_reason_when_available :
    (setQueueState specDecls "sales" 0 "lunch" freshState).world.sent =
      [⟨[("event", .string "QueueStateChanged"), ("pause_reason", .string "lunch"),
         ("queue", .string "sales"), ("queue_state", .string "Available"),
         ("type", .string "Event"), ("username", .string "")]⟩] ∧
    ¬ (((setQueueState specDecls "sales" 0 "lunch" freshState).world.sent.all
          (fun m => m.contains "pause_reason")) = true ↔
        (queueStateText specDecls freshState.user 0 = "Paused" ∧ "lunch" ≠ "")) := by
  decide

end User

/-! ## Enumeration lookups -/

theorem lor_neg_one_right (x : Int) : Int.lor x (-1) = -1 := by
  cases x with
  | ofNat a =>
    show Int.lor (Int.ofNat a) (Int.negSucc 0) = Int.negSucc 0
    simp [Int.lor, Nat.ldiff]
  | negSucc a =>
    show Int.lor (Int.negSucc a) (Int.negSucc 0) = Int.negSucc 0
    simp [Int.lor]

theorem lor_neg_one_left (x : Int) : Int.lor (-1) x = -1 := by
  cases x with
  | ofNat a =>
    show Int.lor (Int.negSucc 0) (Int.ofNat a) = Int.negSucc 0
    simp [Int.lor, Nat.ldiff]
  | negSucc a =>
    show Int.lor (Int.negSucc 0) (Int.negSucc a) = Int.negSucc 0
    simp [Int.lor]

/-- Once the accumulated value is -1 it stays -1. -/
theorem foldl_lor_neg_one (g : List Char → Int) (parts : List (List Char)) :
    parts.foldl (fun value part => Int.lor value (g part)) (-1) = -1 := by
  induction parts with
  | nil => rfl
  | cons p rest ih => simp [List.foldl, lor_neg_one_left, ih]

/-- A part that contributes -1 makes the whole value -1. -/
theorem foldl_lor_of_mem (g : List Char → Int) (parts : List (List Char)) (acc : Int)
    (h : ∃ p ∈ parts, g p = -1) :
    parts.foldl (fun value part => Int.lor value (g part)) acc = -1 := by
  induction parts generalizing acc with
  | nil => simp at h
  | cons p rest ih =>
    obtain ⟨q, hq, hg⟩ := h
    simp only [List.foldl]
    rcases List.mem_cons.mp hq with rfl | hmem
    · rw [hg, lor_neg_one_right]
      exact foldl_lor_neg_one g rest
    · exact ih _ ⟨q, hmem, hg⟩

/-- The value of `keysToValue` is -1 as soon as one `|`-separated part is no key. -/
theorem QMetaEnum.keysToValue_of_unknown_part (e : QMetaEnum) (className : String)
    (keys : List Char)
    (h : ∃ p ∈ splitOn (Char.ofNat 124) keys, e.findKey className p = none) :
    e.keysToValue className keys = -1 := by
  obtain ⟨p, hp, hnone⟩ := h
  unfold QMetaEnum.keysToValue
  exact foldl_lor_of_mem (fun part => (e.findKey className part).getD (-1)) _ 0
    ⟨p, hp, by simp [hnone]⟩

/-- The value of `enumIndex` is -1 when the enumeration is not registered, and when one
`|`-separated part of the text is no key of it. -/
theorem User.enumIndex_of_unknown_part (d : UserDecls) (enumName text : String)
    (h : ∀ e, d.metaObject.enumerator enumName = some e →
      ∃ p ∈ splitOn (Char.ofNat 124) (cString (toLatin1 text.toList)),
        e.findKey d.metaObject.className p = none) :
    User.enumIndex d enumName text = -1 := by
  unfold User.enumIndex
  cases he : d.metaObject.enumerator enumName with
  | none => rfl
  | some e => exact QMetaEnum.keysToValue_of_unknown_part e _ _ (h e he)

namespace User

/-! ## Inbound messages -/

theorem value_request_after_action (fields : QVariantMap) :
    (fields.remove "action").value "request" = fields.value "request" := by
  have h : ("request" : String) ≠ "action" := by decide
  simp [QVariantMap.value, QVariantMap.find_remove, h]

theorem parseMessageFields_of_action (d : UserDecls) (fields : QVariantMap) (s : State)
    (h : (fields.value "action").toString ≠ "") :
    parseMessageFields d fields s =
      (true, emit (.actionReceived (actionIndex d (fields.value "action").toString)
        ((fields.remove "action").remove "request")) s) := by
  simp [parseMessageFields, QVariantMap.take, h]

theorem parseMessageFields_of_request (d : UserDecls) (fields : QVariantMap) (s : State)
    (ha : (fields.value "action").toString = "") (hr : (fields.value "request").toString ≠ "") :
    parseMessageFields d fields s =
      (true, emit (.requestReceived (requestIndex d (fields.value "request").toString)
        ((fields.remove "action").remove "request")) s) := by
  simp [parseMessageFields, QVariantMap.take, value_request_after_action, ha, hr]

theorem parseMessageFields_of_neither (d : UserDecls) (fields : QVariantMap) (s : State)
    (ha : (fields.value "action").toString = "") (hr : (fields.value "request").toString = "") :
    parseMessageFields d fields s = (false, s) := by
  simp [parseMessageFields, QVariantMap.take, value_request_after_action, ha, hr]

/-- C4: `parseMessageFields` returns false exactly when the map carries
neither a non-empty `action` text nor a non-empty `request` text, and then
emits nothing and changes nothing; in every other case it returns true and
emits exactly one signal, which is `actionReceived` or `requestReceived`. -/
theorem parseMessageFields_false_iff_no_discriminator (d : UserDecls) (fields : QVariantMap)
    (s : State) :
    ((parseMessageFields d fields s).1 = false ↔
      ((fields.value "action").toString = "" ∧ (fields.value "request").toString = "")) ∧
    ((parseMessageFields d fields s).1 = false → (parseMessageFields d fields s).2 = s) ∧
    ((parseMessageFields d fields s).1 = true →
      ∃ sig, (parseMessageFields d fields s).2.world.emitted = s.world.emitted ++ [sig] ∧
        (parseMessageFields d fields s).2 = emit sig s ∧
        ((∃ code f, sig = .actionReceived code f) ∨ (∃ code f, sig = .requestReceived code f))) := by
  by_cases ha : (fields.value "action").toString = ""
  · by_cases hr : (fields.value "request").toString = ""
    · rw [parseMessageFields_of_neither d fields s ha hr]
      simp [ha, hr]
    · rw [parseMessageFields_of_request d fields s ha hr]
      refine ⟨by simp [hr], by simp, fun _ => ⟨_, rfl, rfl, Or.inr ⟨_, _, rfl⟩⟩⟩
  · rw [parseMessageFields_of_action d fields s ha]
    refine ⟨by simp [ha], by simp, fun _ => ⟨_, rfl, rfl, Or.inl ⟨_, _, rfl⟩⟩⟩

/-- C10, as the code has it: when the `action` text is non-empty
`parseMessageFields` returns true and emits exactly one signal,
`actionReceived`, also when a non-empty `request` is present; the field map
passed is the input without the `action` and `request` keys, every other key
reading as in the input; the code passed is `actionIndex` of the text, which is
-1 when the `Action` enumeration is not registered or when one `|`-separated
part of the text is no key of it.  With an empty `action` text and a non-empty
`request` text the same holds for `requestReceived` and `requestIndex`. -/
theorem parseMessageFields_action_first (d : UserDecls) (fields : QVariantMap) (s : State)
    (h : (fields.value "action").toString ≠ "") :
    parseMessageFields d fields s =
      (true, emit (.actionReceived (actionIndex d (fields.value "action").toString)
        ((fields.remove "action").remove "request")) s) ∧
    (parseMessageFields d fields s).2.world.emitted = s.world.emitted ++
      [.actionReceived (actionIndex d (fields.value "action").toString)
        ((fields.remove "action").remove "request")] ∧
    (∀ k, ((fields.remove "action").remove "request").find k =
      if k = "request" then none else if k = "action" then none else fields.find k) ∧
    ((∀ e, d.metaObject.enumerator "Action" = some e →
        ∃ p ∈ splitOn (Char.ofNat 124) (cString (toLatin1 (fields.value "action").toString.toList)),
          e.findKey d.metaObject.className p = none) →
      actionIndex d (fields.value "action").toString = -1) ∧
    (∀ g : QVariantMap, (g.value "action").toString = "" → (g.value "request").toString ≠ "" →
      parseMessageFields d g s =
        (true, emit (.requestReceived (requestIndex d (g.value "request").toString)
          ((g.remove "action").remove "request")) s) ∧
      ((∀ e, d.metaObject.enumerator "Request" = some e →
          ∃ p ∈ splitOn (Char.ofNat 124) (cString (toLatin1 (g.value "request").toString.toList)),
            e.findKey d.metaObject.className p = none) →
        requestIndex d (g.value "request").toString = -1)) := by
  refine ⟨parseMessageFields_of_action d fields s h, ?_, ?_, ?_, ?_⟩
  · rw [parseMessageFields_of_action d fields s h]
    rfl
  · intro k
    simp only [QVariantMap.find_remove]
  · intro hp
    exact enumIndex_of_unknown_part d "Action" _ hp
  · intro g ha hr
    exact ⟨parseMessageFields_of_request d g s ha hr,
      fun hp => enumIndex_of_unknown_part d "Request" _ hp⟩

/-- C10 at a concrete message: the action text is "Login", a non-empty request
is present too. -/
theorem parseMessageFields_action_first_witness :
    parseMessageFields specDecls
        ⟨[("action", .string "Login"), ("request", .string "Roster"),
          ("username", .string "alice")]⟩ freshState =
      (true, emit (.actionReceived 0 ⟨[("username", .string "alice")]⟩) freshState) :=
  (parseMessageFields_action_first specDecls
    ⟨[("action", .string "Login"), ("request", .string "Roster"),
      ("username", .string "alice")]⟩ freshState (by decide)).1

/-- C10 fails as stated: the action text "Login|Logout" is none of the names of
the `Action` enumeration, the call returns true, and the code emitted is 1 (the
values of Login and Logout combined), not -1. -/
theorem parseMessageFields_combined_names_not_minus_one :
    (((specDecls.metaObject.enumerator "Action").map
        (fun e => e.keys.map Prod.fst)).getD []).contains "Login|Logout" = false ∧
    parseMessageFields specDecls ⟨[("action", .string "Login|Logout")]⟩ freshState =
      (true, emit (.actionReceived 1 ⟨[]⟩) freshState) ∧
    actionIndex specDecls "Login|Logout" ≠ -1 := by
  decide

end User

namespace User

/-! ## The queue list -/

/-- The queue list after one call: only `addQueue`, `removeQueue` and
`setQueues` touch it. -/
theorem step_queues (d : UserDecls) (s : State) (op : Op) :
    (step d s op).user.queues_ =
      match op with
      | .addQueue q => if s.user.queues_.contains q then s.user.queues_ else s.user.queues_ ++ [q]
      | .removeQueue q => s.user.queues_.filter (fun x => decide (x ≠ q))
      | .setQueues qs => qs
      | _ => s.user.queues_ := by
  cases op <;>
    simp only [step, setUsername, setFullname, setLevel, setPeer, addQueue, removeQueue,
      setQueues, setQueueState, setPauseReason, setPhoneState, setLastCall, startPause,
      finishPause, retrievePause, sendResponseAction, sendResponseRequest, sendEvent,
      timerEvent, parseMessageFields, populateGroups, startSession, killTimer, sendMessage,
      emit] <;>
    repeat (first | rfl | split)

theorem nodup_append_singleton (l : List String) (q : String) (hl : l.Nodup)
    (hq : l.contains q = false) : (l ++ [q]).Nodup := by
  have hq2 : q ∉ l := by simpa using hq
  rw [List.nodup_append]
  refine ⟨hl, List.nodup_singleton q, ?_⟩
  intro x hx hx2
  have : x = q := by simpa using hx2
  exact hq2 (this ▸ hx)

/-- One call keeps the queue list free of duplicates, when a list given to
`setQueues` is. -/
theorem step_queues_nodup (d : UserDecls) (s : State) (op : Op)
    (hs : s.user.queues_.Nodup) (hop : ∀ qs, op = .setQueues qs → qs.Nodup) :
    (step d s op).user.queues_.Nodup := by
  rw [step_queues]
  cases op <;> try exact hs
  case addQueue q =>
    show (if s.user.queues_.contains q then s.user.queues_ else s.user.queues_ ++ [q]).Nodup
    cases hc : s.user.queues_.contains q
    · simpa using nodup_append_singleton _ q hs hc
    · simpa using hs
  case removeQueue q => exact hs.filter _
  case setQueues qs => exact hop qs rfl

theorem run_queues_nodup (d : UserDecls) (ops : List Op) (s : State)
    (hs : s.user.queues_.Nodup) (hops : ∀ op ∈ ops, ∀ qs, op = .setQueues qs → qs.Nodup) :
    (run d s ops).user.queues_.Nodup := by
  induction ops generalizing s with
  | nil => exact hs
  | cons op rest ih =>
    show (run d (step d s op) rest).user.queues_.Nodup
    exact ih _ (step_queues_nodup d s op hs (hops op (List.mem_cons_self _ _)))
      (fun o ho => hops o (List.mem_cons_of_mem _ ho))

/-- C9: a user's joined queues behave as a set.  From a new user (no queues),
after any sequence of calls in which every list given to `setQueues` is free of
duplicates, the queue list holds no name twice; `addQueue(q)` then leaves `q` in
the list exactly once and a second `addQueue(q)` changes nothing; `removeQueue(q)`
leaves a list without `q` that is the list before with the entries `q` taken
out, the other names in their order. -/
theorem queues_behave_as_set (d : UserDecls) (level queueState phoneState : Int) (w : World)
    (ops : List Op) (q : String)
    (hops : ∀ op ∈ ops, ∀ qs, op = .setQueues qs → qs.Nodup) :
    (run d (create level queueState phoneState w) ops).user.queues_.Nodup ∧
    (addQueue q (run d (create level queueState phoneState w) ops)).user.queues_.count q = 1 ∧
    addQueue q (addQueue q (run d (create level queueState phoneState w) ops)) =
      addQueue q (run d (create level queueState phoneState w) ops) ∧
    q ∉ (removeQueue q (run d (create level queueState phoneState w) ops)).user.queues_ ∧
    (removeQueue q (run d (create level queueState phoneState w) ops)).user.queues_.Sublist
      (run d (create level queueState phoneState w) ops).user.queues_ ∧
    (∀ x, x ≠ q →
      (removeQueue q (run d (create level queueState phoneState w) ops)).user.queues_.count x =
        (run d (create level queueState phoneState w) ops).user.queues_.count x) := by
  have hnd : (run d (create level queueState phoneState w) ops).user.queues_.Nodup :=
    run_queues_nodup d ops _ (by simp [create]) hops
  generalize run d (create level queueState phoneState w) ops = t at hnd ⊢
  refine ⟨hnd, ?_, ?_, ?_, ?_, ?_⟩
  · unfold addQueue
    cases hc : t.user.queues_.contains q
    · have hq : q ∉ t.user.queues_ := by simpa using hc
      simp [List.count_append, List.count_eq_zero_of_not_mem hq]
    · have hq : q ∈ t.user.queues_ := by simpa using hc
      simpa using List.count_eq_one_of_mem hnd hq
  · cases hc : t.user.queues_.contains q
    · have h1 : addQueue q t =
          { t with user := { t.user with queues_ := t.user.queues_ ++ [q] } } := by
        simp only [addQueue, hc, Bool.false_eq_true, if_false]
      rw [h1]
      simp [addQueue]
    · have h1 : addQueue q t = t := by simp only [addQueue, hc, if_true]
      rw [h1, h1]
  · simp [removeQueue]
  · exact List.filter_sublist _
  · intro x hx
    simp only [removeQueue]
    rw [List.count_filter]
    simpa using hx

/-- C9 at a concrete sequence of calls. -/
theorem queues_behave_as_set_witness :
    (run specDecls (create 0 0 0 emptyWorld)
      [.setQueues ["sales", "support"], .addQueue "sales", .addQueue "billing",
        .removeQueue "support"]).user.queues_.Nodup :=
  (queues_behave_as_set specDecls 0 0 0 emptyWorld
    [.setQueues ["sales", "support"], .addQueue "sales", .addQueue "billing",
      .removeQueue "support"] "sales"
    (by
      intro op hop qs hqs
      subst hqs
      simp at hop
      subst hop
      decide)).1

end User

namespace User

/-! ## Which calls touch the logs -/

/-- A call that executes no statement leaves the ids, the username, the tables
and the executed statements as they are. -/
theorem step_plain (d : UserDecls) (s : State) (op : Op) (h : op.isBookkeeping = false) :
    (step d s op).user.sessionId = s.user.sessionId ∧
    (step d s op).user.pauseId = s.user.pauseId ∧
    (step d s op).user.username_ = s.user.username_ ∧
    (step d s op).world.database = s.world.database ∧
    (step d s op).world.executed = s.world.executed := by
  cases op with
  | setUsername now okGroups okInsert username => simp [Op.isBookkeeping] at h
  | startPause now ok => simp [Op.isBookkeeping] at h
  | finishPause now ok => simp [Op.isBookkeeping] at h
  | retrievePause ok => simp [Op.isBookkeeping] at h
  | addQueue queue =>
    simp only [step, addQueue]
    split <;> simp
  | parseMessageFields fields =>
    simp only [step, parseMessageFields]
    split
    · simp [emit]
    · split <;> simp [emit]
  | _ =>
    simp [step, setFullname, setLevel, setPeer, removeQueue, setQueues,
      setQueueState, setPauseReason, setPhoneState, setLastCall, sendResponseAction,
      sendResponseRequest, sendEvent, timerEvent, sendMessage, emit]

/-- A call other than an authenticating `setUsername` leaves the session id,
the session log, its next id and the executed session-log statements as they
are, and the username as it is or empty. -/
theorem step_session_frame (d : UserDecls) (s : State) (op : Op)
    (h : op.authenticates = false) :
    (step d s op).user.sessionId = s.user.sessionId ∧
    (step d s op).world.database.user_session_log = s.world.database.user_session_log ∧
    (step d s op).world.database.nextSessionId = s.world.database.nextSessionId ∧
    sessionWrites (step d s op).world.executed = sessionWrites s.world.executed ∧
    ((step d s op).user.username_ = s.user.username_ ∨ (step d s op).user.username_ = "") := by
  by_cases hb : op.isBookkeeping = false
  · obtain ⟨h1, _, h3, h4, h5⟩ := step_plain d s op hb
    simp [h1, h3, h4, h5]
  · cases op with
    | setUsername now okGroups okInsert username =>
      have hu : username = "" := by simpa [Op.authenticates] using h
      subst hu
      simp [step, setUsername]
    | startPause now ok =>
      cases ok <;>
        simp [step, startPause, World.exec, Database.apply, sessionWrites,
          Statement.isSessionWrite, List.filter_append]
    | finishPause now ok =>
      cases ok <;>
        simp [step, finishPause, World.exec, Database.apply, sessionWrites,
          Statement.isSessionWrite, List.filter_append]
    | retrievePause ok =>
      cases ok
      · simp [step, retrievePause, World.exec, Database.apply, sessionWrites,
          Statement.isSessionWrite, List.filter_append]
      · cases hrow : s.world.database.selectOpenPause s.user.username_ <;>
          simp [step, retrievePause, World.exec, Database.apply, sessionWrites,
            Statement.isSessionWrite, List.filter_append, hrow]
    | _ => simp [Op.isBookkeeping] at hb

end User

namespace User

theorem run_cons (d : UserDecls) (s : State) (op : Op) (ops : List Op) :
    run d s (op :: ops) = run d (step d s op) ops := rfl

/-- While no call authenticates, the session id, the session log and the
executed session-log statements stay, and an empty username stays empty. -/
theorem run_unauthenticated (d : UserDecls) (ops : List Op) (s : State)
    (h : ∀ op ∈ ops, op.authenticates = false) (hu : s.user.username_ = "") :
    (run d s ops).user.sessionId = s.user.sessionId ∧
    (run d s ops).user.username_ = "" ∧
    (run d s ops).world.database.user_session_log = s.world.database.user_session_log ∧
    sessionWrites (run d s ops).world.executed = sessionWrites s.world.executed := by
  induction ops generalizing s with
  | nil => exact ⟨rfl, hu, rfl, rfl⟩
  | cons op rest ih =>
    obtain ⟨h1, h2, _, h4, h5⟩ := step_session_frame d s op (h op (List.mem_cons_self _ _))
    have hu2 : (step d s op).user.username_ = "" := by
      rcases h5 with h5 | h5
      · rw [h5, hu]
      · exact h5
    obtain ⟨i1, i2, i3, i4⟩ := ih (step d s op) (fun o ho => h o (List.mem_cons_of_mem _ ho)) hu2
    rw [run_cons]
    exact ⟨i1.trans h1, i2, i3.trans h2, i4.trans h4⟩

/-- C7: a user that is never given a non-empty username issues no session-log
write.  Construction starts the 15000 ms timer with `sessionId` 0; the timer
event calls `disconnect()` and executes nothing; and through any calls none of
which is `setUsername` with a non-empty name, up to and including destruction,
no session-log INSERT or UPDATE is executed, the session log is as it was, and
`sessionId` is 0. -/
theorem unauthenticated_user_writes_no_session (d : UserDecls)
    (level queueState phoneState : Int) (w : World) (ops : List Op) (now : Int) (ok : Bool)
    (h : ∀ op ∈ ops, op.authenticates = false) :
    (create level queueState phoneState w).world.timers =
      w.timers ++ [((create level queueState phoneState w).user.timerId, 15000)] ∧
    (create level queueState phoneState w).user.sessionId = 0 ∧
    (∀ s : State, (timerEvent s).world.disconnects = s.world.disconnects + 1 ∧
      (timerEvent s).world.executed = s.world.executed ∧
      (timerEvent s).world.database = s.world.database ∧ (timerEvent s).user = s.user) ∧
    (run d (create level queueState phoneState w) ops).user.sessionId = 0 ∧
    sessionWrites (run d (create level queueState phoneState w) ops).world.executed =
      sessionWrites w.executed ∧
    (destroy now ok (run d (create level queueState phoneState w) ops)).user.sessionId = 0 ∧
    sessionWrites (destroy now ok (run d (create level queueState phoneState w) ops)).world.executed =
      sessionWrites w.executed ∧
    (destroy now ok (run d (create level queueState phoneState w) ops)).world.database.user_session_log =
      w.database.user_session_log := by
  obtain ⟨h1, h2, h3, h4⟩ :=
    run_unauthenticated d ops (create level queueState phoneState w) h rfl
  have hd : destroy now ok (run d (create level queueState phoneState w) ops) =
      run d (create level queueState phoneState w) ops := by
    simp [destroy, h2]
  refine ⟨rfl, rfl, fun s => ⟨rfl, rfl, rfl, rfl⟩, h1, h4, ?_, ?_, ?_⟩
  · rw [hd]; exact h1
  · rw [hd]; exact h4
  · rw [hd]; exact h3

/-- C7 at a concrete life: an empty username is set, a message without a
discriminator arrives, the timer fires, the user is destroyed. -/
theorem unauthenticated_user_writes_no_session_witness :
    sessionWrites (destroy 16000 true (run specDecls (create 0 0 0 emptyWorld)
      [.setUsername 10 true true "", .parseMessageFields ⟨[("ping", .bool true)]⟩,
        .timerEvent])).world.executed = [] :=
  (unauthenticated_user_writes_no_session specDecls 0 0 0 emptyWorld
    [.setUsername 10 true true "", .parseMessageFields ⟨[("ping", .bool true)]⟩, .timerEvent]
    16000 true (by decide)).2.2.2.2.2.2.1

end User

namespace User

/-! ## The session row of an authenticated user -/

/-- A call other than `setUsername` keeps the username. -/
theorem step_keeps_username (d : UserDecls) (s : State) (op : Op)
    (h : op.isSetUsername = false) : (step d s op).user.username_ = s.user.username_ := by
  by_cases hb : op.isBookkeeping = false
  · exact (step_plain d s op hb).2.2.1
  · cases op with
    | setUsername now okGroups okInsert username => simp [Op.isSetUsername] at h
    | startPause now ok => cases ok <;> simp [step, startPause]
    | finishPause now ok => simp [step, finishPause]
    | retrievePause ok =>
      cases ok
      · simp [step, retrievePause]
      · cases hrow : s.world.database.selectOpenPause s.user.username_ <;>
          simp [step, retrievePause, hrow]
    | _ => simp [Op.isBookkeeping] at hb

theorem authenticates_of_not_setUsername (op : Op) (h : op.isSetUsername = false) :
    op.authenticates = false := by
  cases op <;> simp_all [Op.isSetUsername, Op.authenticates]

/-- A call that keeps the session keeps the session id and the session log, and
a non-empty username stays non-empty. -/
theorem step_keeps_session (d : UserDecls) (s : State) (op : Op)
    (h : op.keepsSession = true) (hu : s.user.username_ ≠ "") :
    (step d s op).user.sessionId = s.user.sessionId ∧
    (step d s op).user.username_ ≠ "" ∧
    (step d s op).world.database.user_session_log = s.world.database.user_session_log := by
  by_cases hset : op.isSetUsername = false
  · obtain ⟨h1, h2, _, _, _⟩ :=
      step_session_frame d s op (authenticates_of_not_setUsername op hset)
    exact ⟨h1, by rw [step_keeps_username d s op hset]; exact hu, h2⟩
  · cases op with
    | setUsername now okGroups okInsert username =>
      have hk : username ≠ "" ∧ okInsert = false := by
        simpa [Op.keepsSession] using h
      obtain ⟨hname, hok⟩ := hk
      subst hok
      cases okGroups <;>
        simp [step, setUsername, hname, startSession, populateGroups, killTimer, World.exec,
          Database.apply]
    | _ => simp [Op.isSetUsername] at hset

/-- Calls that keep the session keep the session id and the session log, and a
non-empty username stays non-empty. -/
theorem run_keeps_session (d : UserDecls) (ops : List Op) (s : State)
    (h : ∀ op ∈ ops, op.keepsSession = true) (hu : s.user.username_ ≠ "") :
    (run d s ops).user.sessionId = s.user.sessionId ∧
    (run d s ops).user.username_ ≠ "" ∧
    (run d s ops).world.database.user_session_log = s.world.database.user_session_log := by
  induction ops generalizing s with
  | nil => exact ⟨rfl, hu, rfl⟩
  | cons op rest ih =>
    obtain ⟨h1, h2, h3⟩ := step_keeps_session d s op (h op (List.mem_cons_self _ _)) hu
    obtain ⟨i1, i2, i3⟩ := ih (step d s op) (fun o ho => h o (List.mem_cons_of_mem _ ho)) h2
    rw [run_cons]
    exact ⟨i1.trans h1, i2, i3.trans h3⟩

/-- C8, as the code has it: a user is authenticated by `setUsername` with a
non-empty name at time `start`, the INSERT succeeding with an id that fits 32
bits: a session-log row with that start and no finish is added.  After any
calls among which no `setUsername` clears the username or opens another session
row, destroying the user at time `finish`, the UPDATE succeeding, sets the
finish of that same row to `finish`, and with a clock that has not gone
backwards (`start ≤ finish`) the finish written is at or after the row's
start. -/
theorem authenticated_session_closed_on_destroy (d : UserDecls) (s : State) (name : String)
    (start finish : Int) (okGroups : Bool) (ops : List Op)
    (hname : name ≠ "") (hid : s.world.database.nextSessionId < 2 ^ 32)
    (hops : ∀ op ∈ ops, op.keepsSession = true) (hclock : start ≤ finish) :
    (setUsername start okGroups true name s).world.database.user_session_log =
      s.world.database.user_session_log ++
        [⟨s.world.database.nextSessionId, name, start, none⟩] ∧
    (destroy finish true
        (run d (setUsername start okGroups true name s) ops)).world.database.user_session_log =
      s.world.database.user_session_log.map
          (fun r => if r.id = s.world.database.nextSessionId
            then { r with finish := some finish } else r) ++
        [⟨s.world.database.nextSessionId, name, start, some finish⟩] ∧
    (∃ r ∈ (destroy finish true
        (run d (setUsername start okGroups true name s) ops)).world.database.user_session_log,
      r.id = s.world.database.nextSessionId ∧ r.username = name ∧ r.start = start ∧
        r.finish = some finish ∧ r.start ≤ finish) := by
  have hid2 : s.world.database.nextSessionId < 4294967296 := by simpa using hid
  have hmod : s.world.database.nextSessionId % 4294967296 = s.world.database.nextSessionId :=
    Nat.mod_eq_of_lt hid2
  have hs1 : (setUsername start okGroups true name s).user.sessionId =
      s.world.database.nextSessionId := by
    cases okGroups <;>
      simp [setUsername, hname, startSession, populateGroups, killTimer, World.exec, toUInt,
        Database.apply, hmod]
  have hu1 : (setUsername start okGroups true name s).user.username_ = name := by
    cases okGroups <;>
      simp [setUsername, hname, startSession, populateGroups, killTimer, World.exec]
  have hl1 : (setUsername start okGroups true name s).world.database.user_session_log =
      s.world.database.user_session_log ++
        [⟨s.world.database.nextSessionId, name, start, none⟩] := by
    cases okGroups <;>
      simp [setUsername, hname, startSession, populateGroups, killTimer, World.exec,
        Database.apply]
  obtain ⟨r1, r2, r3⟩ := run_keeps_session d ops (setUsername start okGroups true name s) hops
    (by rw [hu1]; exact hname)
  have hfinal : (destroy finish true
      (run d (setUsername start okGroups true name s) ops)).world.database.user_session_log =
      s.world.database.user_session_log.map
          (fun r => if r.id = s.world.database.nextSessionId
            then { r with finish := some finish } else r) ++
        [⟨s.world.database.nextSessionId, name, start, some finish⟩] := by
    simp only [destroy, r2, ne_eq, not_false_eq_true, if_true, finishSession, World.exec,
      Database.apply]
    rw [r3, r1, hs1, hl1]
    simp
  refine ⟨hl1, hfinal, ⟨s.world.database.nextSessionId, name, start, some finish⟩, ?_,
    rfl, rfl, rfl, rfl, hclock⟩
  rw [hfinal]
  simp

/-- C8 at a concrete life: alice logs in at 1000, is paused and unpaused, a
second login under another name fails at its INSERT, and the user is destroyed
at 9000. -/
theorem authenticated_session_closed_on_destroy_witness :
    (destroy 9000 true (run specDecls (setUsername 1000 true true "alice" freshState)
      [.startPause 2000 true, .finishPause 3000 true,
        .setUsername 4000 true false "alicia"])).world.database.user_session_log =
      [⟨1, "alice", 1000, some 9000⟩] :=
  (authenticated_session_closed_on_destroy specDecls freshState "alice" 1000 9000 true
    [.startPause 2000 true, .finishPause 3000 true, .setUsername 4000 true false "alicia"]
    (by decide) (by decide) (by decide) (by decide)).2.1

/-- C8 fails as stated: after alice has logged in (her row has id 1, start
1000), destroying the user leaves the finish of that row unset when
`setUsername("")` came in between, when `setUsername("bob")` came in between
(bob's row is closed instead), when the UPDATE fails, and when the row's id is
2^32, which `sessionId` holds as 0. -/
theorem session_row_left_open_on_destroy :
    (destroy 9000 true (run specDecls (setUsername 1000 true true "alice" freshState)
      [.setUsername 2000 true true ""])).world.database.user_session_log =
      [⟨1, "alice", 1000, none⟩] ∧
    (destroy 9000 true (run specDecls (setUsername 1000 true true "alice" freshState)
      [.setUsername 2000 true true "bob"])).world.database.user_session_log =
      [⟨1, "alice", 1000, none⟩, ⟨2, "bob", 2000, some 9000⟩] ∧
    (destroy 9000 false
      (setUsername 1000 true true "alice" freshState)).world.database.user_session_log =
      [⟨1, "alice", 1000, none⟩] ∧
    (destroy 9000 true
      (setUsername 1000 true true "alice"
        (create 0 0 0 lateWorld))).world.database.user_session_log =
      [⟨4294967296, "alice", 1000, none⟩] := by
  decide

end User

namespace User

/-! ## Closing a pause -/

/-- An UPDATE bound to an id no row has changes no row. -/
theorem map_finish_of_no_id (l : List PauseRow) (id : Nat) (finish : Int)
    (h : ∀ r ∈ l, r.id ≠ id) :
    l.map (fun r => if r.id = id then { r with finish := some finish } else r) = l := by
  induction l with
  | nil => rfl
  | cons r rest ih =>
    have hr : r.id ≠ id := h r (List.mem_cons_self _ _)
    simp [hr, ih (fun x hx => h x (List.mem_cons_of_mem _ hx))]

/-- An UPDATE of the pause log keeps the ids of its rows. -/
theorem ids_after_pauseUpdate (db : Database) (finish : Int) (id : Nat) :
    ∀ r ∈ (db.apply (.pauseUpdate finish id)).user_pause_log,
      ∃ r0 ∈ db.user_pause_log, r0.id = r.id := by
  intro r hr
  simp only [Database.apply, List.mem_map] at hr
  obtain ⟨r0, hr0, hrr⟩ := hr
  refine ⟨r0, hr0, ?_⟩
  by_cases hc : r0.id = id
  · simp [hc] at hrr
    rw [← hrr]
    exact hc
  · simp [hc] at hrr
    rw [hrr]

/-- C3, as the code has it: `finishPause` executes its UPDATE on every call,
bound to the pause id it finds (0 when no pause is open), and resets the id.
On a pause log in which no row has id 0, the second of two calls in succession
executes a second UPDATE, bound to id 0, that changes no row and leaves the
object as the first call left it; and a call with `pauseId` 0 changes neither
the user state nor the tables. -/
theorem finishPause_second_call_changes_no_row (s : State) (now1 now2 : Int) (ok1 ok2 : Bool)
    (h : ∀ r ∈ s.world.database.user_pause_log, r.id ≠ 0) :
    (finishPause now1 ok1 s).world.executed =
      s.world.executed ++ [(.pauseUpdate now1 s.user.pauseId, ok1)] ∧
    (finishPause now1 ok1 s).user.pauseId = 0 ∧
    (finishPause now2 ok2 (finishPause now1 ok1 s)).world.executed =
      s.world.executed ++
        [(.pauseUpdate now1 s.user.pauseId, ok1), (.pauseUpdate now2 0, ok2)] ∧
    (finishPause now2 ok2 (finishPause now1 ok1 s)).world.database =
      (finishPause now1 ok1 s).world.database ∧
    (finishPause now2 ok2 (finishPause now1 ok1 s)).user = (finishPause now1 ok1 s).user ∧
    (s.user.pauseId = 0 →
      (finishPause now1 ok1 s).user = s.user ∧
      (finishPause now1 ok1 s).world.database = s.world.database) := by
  have hzero : ∀ (db : Database) (finish : Int), (∀ r ∈ db.user_pause_log, r.id ≠ 0) →
      db.apply (.pauseUpdate finish 0) = db := by
    intro db finish hdb
    simp only [Database.apply]
    rw [map_finish_of_no_id db.user_pause_log 0 finish hdb]
  have hafter : ∀ r ∈ (finishPause now1 ok1 s).world.database.user_pause_log, r.id ≠ 0 := by
    intro r hr
    cases ok1
    · exact h r (by simpa [finishPause, World.exec] using hr)
    · have hr2 : r ∈ (s.world.database.apply
          (.pauseUpdate now1 s.user.pauseId)).user_pause_log := by
        simpa [finishPause, World.exec] using hr
      obtain ⟨r0, hr0, hid⟩ := ids_after_pauseUpdate _ _ _ r hr2
      rw [← hid]
      exact h r0 hr0
  refine ⟨by simp [finishPause, World.exec], rfl, by simp [finishPause, World.exec], ?_, rfl, ?_⟩
  · cases ok2
    · simp [finishPause, World.exec]
    · have := hzero (finishPause now1 ok1 s).world.database now2 hafter
      simpa [finishPause, World.exec] using this
  · intro hp
    refine ⟨?_, ?_⟩
    · simp only [finishPause]
      rw [← hp]
    · cases ok1
      · simp [finishPause, World.exec]
      · have := hzero s.world.database now1 h
        simpa [finishPause, World.exec, hp] using this

/-- C3 at a concrete state: a pause is opened at 3 and closed at 9 and again at
10; the row keeps the finish of the first call. -/
theorem finishPause_second_call_changes_no_row_witness :
    (finishPause 10 true (finishPause 9 true (startPause 3 true freshState))).world.database =
      (finishPause 9 true (startPause 3 true freshState)).world.database :=
  (finishPause_second_call_changes_no_row (startPause 3 true freshState) 9 10 true true
    (by decide)).2.2.2.1

/-- C3 fails as stated: two calls of `finishPause` in succession execute two
pause-log UPDATE statements, the second bound to id 0; and on a new user, whose
`pauseId` is 0, one call executes one. -/
theorem finishPause_executes_on_every_call :
    (finishPause 10 true (finishPause 9 true (startPause 3 true freshState))).world.executed =
      [(.pauseInsert "" 3 "", true), (.pauseUpdate 9 1, true), (.pauseUpdate 10 0, true)] ∧
    freshState.user.pauseId = 0 ∧
    (finishPause 10 true freshState).world.executed = [(.pauseUpdate 10 0, true)] := by
  decide

end User

namespace User

/-! ## Open rows of a user -/

/-- An UPDATE of the session log opens no row: the open rows of a user are no
more than before. -/
theorem open_sessions_after_update (rows : List SessionRow) (finish : Int) (id : Nat)
    (name : String) :
    (((rows.map (fun r => if r.id = id then { r with finish := some finish } else r)).filter
        (fun r => r.finish.isNone)).filter (fun r => decide (r.username = name))).length ≤
      ((rows.filter (fun r => r.finish.isNone)).filter
        (fun r => decide (r.username = name))).length := by
  induction rows with
  | nil => simp
  | cons r rest ih =>
    simp only [List.filter_filter] at ih ⊢
    by_cases hc : r.id = id <;> by_cases ho : r.finish.isNone = true <;>
      by_cases hn : r.username = name <;>
      simp [List.filter_cons, hc, ho, hn] <;> omega

/-- An UPDATE of the pause log opens no row: the open rows of a user are no
more than before. -/
theorem open_pauses_after_update (rows : List PauseRow) (finish : Int) (id : Nat)
    (name : String) :
    (((rows.map (fun r => if r.id = id then { r with finish := some finish } else r)).filter
        (fun r => r.finish.isNone)).filter (fun r => decide (r.username = name))).length ≤
      ((rows.filter (fun r => r.finish.isNone)).filter
        (fun r => decide (r.username = name))).length := by
  induction rows with
  | nil => simp
  | cons r rest ih =>
    simp only [List.filter_filter] at ih ⊢
    by_cases hc : r.id = id <;> by_cases ho : r.finish.isNone = true <;>
      by_cases hn : r.username = name <;>
      simp [List.filter_cons, hc, ho, hn] <;> omega

/-- The open rows of a user after a successfully executed statement: an INSERT
adds one row, for the name it is bound to; nothing else adds any. -/
theorem open_rows_after_apply (db : Database) (st : Statement) (name : String) :
    ((db.apply st).openSessionsOf name).length ≤ (db.openSessionsOf name).length +
      (match st with
        | .sessionInsert username _ => if username = name then 1 else 0
        | _ => 0) ∧
    ((db.apply st).openPausesOf name).length ≤ (db.openPausesOf name).length +
      (match st with
        | .pauseInsert username _ _ => if username = name then 1 else 0
        | _ => 0) := by
  cases st with
  | sessionInsert username start =>
    refine ⟨?_, Nat.le_refl _⟩
    by_cases hn : username = name <;>
      simp [Database.apply, Database.openSessionsOf, Database.openSessions,
        List.filter_append, List.filter_cons, hn]
  | sessionUpdate finish id =>
    exact ⟨open_sessions_after_update db.user_session_log finish id name, Nat.le_refl _⟩
  | pauseInsert username start reason =>
    refine ⟨Nat.le_refl _, ?_⟩
    by_cases hn : username = name <;>
      simp [Database.apply, Database.openPausesOf, Database.openPauses,
        List.filter_append, List.filter_cons, hn]
  | pauseUpdate finish id =>
    exact ⟨Nat.le_refl _, open_pauses_after_update db.user_pause_log finish id name⟩
  | pauseSelect username => exact ⟨Nat.le_refl _, Nat.le_refl _⟩
  | groupSelect username => exact ⟨Nat.le_refl _, Nat.le_refl _⟩

end User

namespace User

/-! ## One open row a user -/

theorem setUsername_database (s : State) (now : Int) (okGroups okInsert : Bool)
    (username : String) :
    (setUsername now okGroups okInsert username s).world.database =
      if username ≠ "" ∧ okInsert = true
      then s.world.database.apply (.sessionInsert username now) else s.world.database := by
  by_cases hname : username = ""
  · simp [setUsername, hname]
  · cases okGroups <;> cases okInsert <;>
      simp [setUsername, hname, startSession, populateGroups, killTimer, World.exec,
        Database.apply]

theorem retrievePause_database (s : State) (ok : Bool) :
    (retrievePause ok s).world.database = s.world.database := by
  cases ok
  · simp [retrievePause, World.exec]
  · cases hrow : s.world.database.selectOpenPause s.user.username_ <;>
      simp [retrievePause, World.exec, Database.apply, hrow]

/-- The open rows of a user after one call: `setUsername` with that name,
non-empty, adds at most one open session row, `startPause` while that is the
username at most one open pause row, and no other call adds any. -/
theorem step_open_rows (d : UserDecls) (s : State) (op : Op) (name : String) :
    ((step d s op).world.database.openSessionsOf name).length ≤
      (s.world.database.openSessionsOf name).length + op.sessionRowsAdded name ∧
    ((step d s op).world.database.openPausesOf name).length ≤
      (s.world.database.openPausesOf name).length + op.pauseRowsAdded s name := by
  by_cases hb : op.isBookkeeping = false
  · rw [(step_plain d s op hb).2.2.2.1]
    exact ⟨Nat.le_add_right _ _, Nat.le_add_right _ _⟩
  · cases op with
    | setUsername now okGroups okInsert username =>
      show ((setUsername now okGroups okInsert username s).world.database.openSessionsOf
          name).length ≤ _ ∧
        ((setUsername now okGroups okInsert username s).world.database.openPausesOf
          name).length ≤ _
      rw [setUsername_database]
      by_cases hc : username ≠ "" ∧ okInsert = true
      · obtain ⟨h1, h2⟩ :=
          open_rows_after_apply s.world.database (.sessionInsert username now) name
        rw [if_pos hc]
        refine ⟨?_, by simpa [Op.pauseRowsAdded] using h2⟩
        by_cases hn : username = name
        · have hadd : (Op.setUsername now okGroups okInsert username).sessionRowsAdded name
              = 1 := by
            simp only [Op.sessionRowsAdded]
            rw [if_pos ⟨hc.1, hc.2, hn⟩]
          rw [hadd]
          simpa [hn] using h1
        · have h3 : ((s.world.database.apply (.sessionInsert username now)).openSessionsOf
              name).length ≤ (s.world.database.openSessionsOf name).length := by
            simpa [hn] using h1
          exact Nat.le_trans h3 (Nat.le_add_right _ _)
      · rw [if_neg hc]
        exact ⟨Nat.le_add_right _ _, Nat.le_add_right _ _⟩
    | startPause now ok =>
      cases ok
      · have hdb : (step d s (.startPause now false)).world.database = s.world.database := by
          simp [step, startPause, World.exec]
        rw [hdb]
        exact ⟨Nat.le_add_right _ _, Nat.le_add_right _ _⟩
      · have hdb : (step d s (.startPause now true)).world.database =
            s.world.database.apply
              (.pauseInsert s.user.username_ now s.user.pauseReason_) := by
          simp [step, startPause, World.exec]
        rw [hdb]
        obtain ⟨h1, h2⟩ := open_rows_after_apply s.world.database
          (.pauseInsert s.user.username_ now s.user.pauseReason_) name
        refine ⟨by simpa [Op.sessionRowsAdded] using h1, ?_⟩
        by_cases hn : s.user.username_ = name
        · simpa [Op.pauseRowsAdded, hn] using h2
        · simpa [Op.pauseRowsAdded, hn] using h2
    | finishPause now ok =>
      cases ok
      · have hdb : (step d s (.finishPause now false)).world.database = s.world.database := by
          simp [step, finishPause, World.exec]
        rw [hdb]
        exact ⟨Nat.le_add_right _ _, Nat.le_add_right _ _⟩
      · have hdb : (step d s (.finishPause now true)).world.database =
            s.world.database.apply (.pauseUpdate now s.user.pauseId) := by
          simp [step, finishPause, World.exec]
        rw [hdb]
        obtain ⟨h1, h2⟩ := open_rows_after_apply s.world.database
          (.pauseUpdate now s.user.pauseId) name
        exact ⟨by simpa [Op.sessionRowsAdded] using h1,
          by simpa [Op.pauseRowsAdded] using h2⟩
    | retrievePause ok =>
      have hdb : (step d s (.retrievePause ok)).world.database = s.world.database :=
        retrievePause_database s ok
      rw [hdb]
      exact ⟨Nat.le_add_right _ _, Nat.le_add_right _ _⟩
    | _ => simp [Op.isBookkeeping] at hb

/-- An allowed call keeps a user at no more than one open row in each log. -/
theorem step_at_most_one_open (d : UserDecls) (s : State) (op : Op) (name : String)
    (ha : op.allowedIn s)
    (h1 : (s.world.database.openSessionsOf name).length ≤ 1)
    (h2 : (s.world.database.openPausesOf name).length ≤ 1) :
    ((step d s op).world.database.openSessionsOf name).length ≤ 1 ∧
    ((step d s op).world.database.openPausesOf name).length ≤ 1 := by
  obtain ⟨b1, b2⟩ := step_open_rows d s op name
  refine ⟨?_, ?_⟩
  · cases op with
    | setUsername now okGroups okInsert username =>
      by_cases hc : username ≠ "" ∧ okInsert = true ∧ username = name
      · obtain ⟨hne, _, hn⟩ := hc
        have hempty : s.world.database.openSessionsOf username = [] := ha hne
        rw [hn] at hempty
        have hadd : (Op.setUsername now okGroups okInsert username).sessionRowsAdded name ≤ 1 := by
          simp only [Op.sessionRowsAdded]
          split <;> omega
        rw [hempty] at b1
        simpa using Nat.le_trans b1 (by simpa using hadd)
      · have hadd : (Op.setUsername now okGroups okInsert username).sessionRowsAdded name = 0 := by
          simp only [Op.sessionRowsAdded]
          rw [if_neg hc]
        rw [hadd] at b1
        omega
    | _ =>
      simp only [Op.sessionRowsAdded] at b1
      omega
  · cases op with
    | startPause now ok =>
      by_cases hc : ok = true ∧ s.user.username_ = name
      · have hempty : s.world.database.openPausesOf s.user.username_ = [] := ha
        rw [hc.2] at hempty
        have hadd : (Op.startPause now ok).pauseRowsAdded s name ≤ 1 := by
          simp only [Op.pauseRowsAdded]
          split <;> omega
        rw [hempty] at b2
        simpa using Nat.le_trans b2 (by simpa using hadd)
      · have hadd : (Op.startPause now ok).pauseRowsAdded s name = 0 := by
          simp only [Op.pauseRowsAdded]
          rw [if_neg hc]
        rw [hadd] at b2
        omega
    | _ =>
      simp only [Op.pauseRowsAdded] at b2
      omega

theorem run_at_most_one_open (d : UserDecls) (ops : List Op) (s : State) (name : String)
    (hd : Disciplined d s ops)
    (h1 : (s.world.database.openSessionsOf name).length ≤ 1)
    (h2 : (s.world.database.openPausesOf name).length ≤ 1) :
    ((run d s ops).world.database.openSessionsOf name).length ≤ 1 ∧
    ((run d s ops).world.database.openPausesOf name).length ≤ 1 := by
  induction ops generalizing s with
  | nil => exact ⟨h1, h2⟩
  | cons op rest ih =>
    obtain ⟨ha, hrest⟩ := hd
    obtain ⟨i1, i2⟩ := step_at_most_one_open d s op name ha h1 h2
    rw [run_cons]
    exact ih (step d s op) hrest i1 i2

theorem disciplined_take (d : UserDecls) (ops : List Op) (s : State) (n : Nat)
    (hd : Disciplined d s ops) : Disciplined d s (ops.take n) := by
  induction ops generalizing s n with
  | nil => simpa using hd
  | cons op rest ih =>
    cases n with
    | zero => exact True.intro
    | succ m => exact ⟨hd.1, ih (step d s op) m hd.2⟩

/-- Destruction adds no open row. -/
theorem destroy_open_rows (s : State) (now : Int) (ok : Bool) (name : String) :
    ((destroy now ok s).world.database.openSessionsOf name).length ≤
      (s.world.database.openSessionsOf name).length ∧
    ((destroy now ok s).world.database.openPausesOf name).length ≤
      (s.world.database.openPausesOf name).length := by
  unfold destroy
  split
  · cases ok
    · have hdb : (finishSession now false s).world.database = s.world.database := by
        simp [finishSession, World.exec]
      rw [hdb]
      exact ⟨Nat.le_refl _, Nat.le_refl _⟩
    · have hdb : (finishSession now true s).world.database =
          s.world.database.apply (.sessionUpdate now s.user.sessionId) := by
        simp [finishSession, World.exec]
      rw [hdb]
      obtain ⟨h1, h2⟩ := open_rows_after_apply s.world.database
        (.sessionUpdate now s.user.sessionId) name
      exact ⟨by simpa using h1, by simpa using h2⟩
  · exact ⟨Nat.le_refl _, Nat.le_refl _⟩

/-- C6, as the code has it: a user `name` has at most one open row in each log
to begin with, and the object receives calls in which `setUsername` with a
non-empty name comes only while that name has no open session-log row and
`startPause` only while the username has no open pause-log row; statements may
fail, other users may have open rows, and the object may be in any state.  Then
after every number `n` of these calls, and also after destroying the user at
that point, the session log holds at most one row of `name` whose finish is
unset and the pause log at most one. -/
theorem logs_hold_at_most_one_open_row (d : UserDecls) (s : State) (ops : List Op)
    (name : String) (now : Int) (ok : Bool) (n : Nat)
    (h1 : (s.world.database.openSessionsOf name).length ≤ 1)
    (h2 : (s.world.database.openPausesOf name).length ≤ 1)
    (hd : Disciplined d s ops) :
    ((run d s (ops.take n)).world.database.openSessionsOf name).length ≤ 1 ∧
    ((run d s (ops.take n)).world.database.openPausesOf name).length ≤ 1 ∧
    ((destroy now ok (run d s (ops.take n))).world.database.openSessionsOf name).length ≤ 1 ∧
    ((destroy now ok (run d s (ops.take n))).world.database.openPausesOf name).length ≤ 1 := by
  obtain ⟨r1, r2⟩ :=
    run_at_most_one_open d (ops.take n) s name (disciplined_take d ops s n hd) h1 h2
  obtain ⟨d1, d2⟩ := destroy_open_rows (run d s (ops.take n)) now ok name
  exact ⟨r1, r2, Nat.le_trans d1 r1, Nat.le_trans d2 r2⟩

/-- C6 at a concrete life, over tables in which bob has open rows and alice an
open pause row from an earlier connection: alice logs in, the open pause is
read back and closed, and a new pause is started. -/
theorem logs_hold_at_most_one_open_row_witness :
    ((run specDecls (create 0 0 0 leftoverWorld)
      ([Op.setUsername 1000 true true "alice", .retrievePause true, .finishPause 2000 true,
        .startPause 3000 true].take 4)).world.database.openPausesOf "alice").length ≤ 1 :=
  (logs_hold_at_most_one_open_row specDecls (create 0 0 0 leftoverWorld)
    [.setUsername 1000 true true "alice", .retrievePause true, .finishPause 2000 true,
      .startPause 3000 true] "alice" 9000 true 4
    (by decide) (by decide)
    ⟨by simp only [Op.allowedIn]; decide, True.intro, True.intro,
      by simp only [Op.allowedIn]; decide, True.intro⟩).2.1

/-- C6 fails as stated: after `setUsername("alice")` and two calls of
`startPause` the pause log holds two rows of alice whose finish is unset; after
two calls of `setUsername("alice")` the session log holds two; and over tables
in which alice has an open pause row from an earlier connection, a new user
that logs in as alice has `pauseId` 0, and its first `startPause` leaves alice
with two open pause rows. -/
theorem two_open_rows_after_repeated_calls :
    (run specDecls freshState
      [.setUsername 1000 true true "alice", .startPause 2000 true,
        .startPause 3000 true]).world.database.openPausesOf "alice" =
      [⟨1, "alice", 2000, none, ""⟩, ⟨2, "alice", 3000, none, ""⟩] ∧
    (run specDecls freshState
      [.setUsername 1000 true true "alice",
        .setUsername 2000 true true "alice"]).world.database.openSessionsOf "alice" =
      [⟨1, "alice", 1000, none⟩, ⟨2, "alice", 2000, none⟩] ∧
    (run specDecls (create 0 0 0 leftoverWorld)
      [.setUsername 1000 true true "alice"]).user.pauseId = 0 ∧
    (run specDecls (create 0 0 0 leftoverWorld)
      [.setUsername 1000 true true "alice",
        .startPause 2000 true]).world.database.openPausesOf "alice" =
      [⟨1, "alice", 500, none, "lunch"⟩, ⟨3, "alice", 2000, none, ""⟩] := by
  decide

end User

end Centini
